import Mathlib

/-!
Shallow embedding of the bastok parser framework
(source file: src/pylib/bastok/parser.py).

The input is an arbitrary sequence of elements of a type `e` (Python `str`
gives `List Char`, Python `bytes` gives `List Nat`).  Output fragments are
Python values, modelled by the closed universe `PyVal` below, so that the
runtime `isinstance` check of `PState.generate` and the `join` dispatch of
`PState.output` can be expressed.  Raising a `ParseError` is modelled by
`Except`: the error value carries the kind of error (with the data that the
source interpolates into the message string) together with the diagnostic
rendered by `PState.__str__` at raise time.
-/

/-- Python runtime values that can appear in a parser output list.  The
subclass relation of the embedded types is the one of Python: `bool` is a
subclass of `int`. -/
inductive PyVal where
  | str (s : List Char)
  | bytes (b : List Nat)
  | int (n : Int)
  | bool (b : Bool)
  deriving DecidableEq

/-- Python types of the values above. -/
inductive PyTy where
  | str
  | bytes
  | int
  | bool
  deriving DecidableEq

/-- The concrete Python type of a value, as `type(x)`. -/
def PyVal.pytype : PyVal → PyTy
  | .str _ => .str
  | .bytes _ => .bytes
  | .int _ => .int
  | .bool _ => .bool

/-- Subclass test between the embedded Python types; reflexive, and `bool`
is a subclass of `int`. -/
def PyTy.issub : PyTy → PyTy → Bool
  | .bool, .int => true
  | t, u => t == u

/-- Python `isinstance(x, t)`: the concrete type of `x` is `t` or a subclass
of `t`. -/
def isinstance (x : PyVal) (t : PyTy) : Bool :=
  PyTy.issub x.pytype t

/-- Python slice-bound normalization: a negative bound counts from the end of
the sequence, and bounds are clamped to `[0, n]`. -/
def pyIdx (n : Nat) (i : Int) : Nat :=
  if i < 0 then (max ((n : Int) + i) 0).toNat else min i.toNat n

/-- Python slice `l[a:b]`. -/
def pySlice {a : Type} (l : List a) (i j : Int) : List a :=
  (l.take (pyIdx l.length j)).drop (pyIdx l.length i)

/-- The kinds of `ParseError` raised by the framework, carrying the data that
the source interpolates into the message text. -/
inductive ErrKind where
  | pastEnd (requested available : Nat)
  | cannotGenerate (x : PyVal) (t tfirst : PyTy)
  | custom (message : String)
  | indexError
  deriving DecidableEq

/-- Name of an embedded Python type, used in error messages. -/
def PyTy.pyname : PyTy → String
  | .str => "str"
  | .bytes => "bytes"
  | .int => "int"
  | .bool => "bool"

/-- The message text of each error kind, following the format strings of the
source (the `repr` of the offending value is elided). -/
def ErrKind.message : ErrKind → String
  | .pastEnd r a => "Consumed past end of input: " ++ toString r ++ " > " ++ toString a
  | .cannotGenerate _ t tf =>
      "Cannot generate: " ++ t.pyname ++ " not an instance of " ++ tf.pyname ++ "."
  | .custom m => m
  | .indexError => "index out of range"

/-- The diagnostic rendered by `PState.__str__`: the position, the slice
`input[pos:pos+12]`, the slice `input[pos-12:pos]` and `olist[-4:]`, all with
Python slicing semantics. -/
structure Diag (e : Type) where
  pos : Nat
  ahead : List e
  behind : List e
  frags : List PyVal
  deriving DecidableEq

/-- A raised `ParseError`: its kind (determining the message text) and the
diagnostic of the state it was raised from. -/
structure ParseError (e : Type) where
  kind : ErrKind
  diag : Diag e
  deriving DecidableEq

/-- True exactly when the error is the consumed-past-end-of-input error. -/
def ParseError.pastEndQ {e : Type} (err : ParseError e) : Bool :=
  match err.kind with
  | .pastEnd _ _ => true
  | _ => false

/-- The `Charset` interface expected by the source: `trans` converts a native
element to a Unicode char, `native` converts a Unicode char to a native
element. -/
structure Charset (e : Type) where
  trans : e → Char
  native : Char → e

/-- The `Parser` class: input, confirmed and unconfirmed parse points, output
list and optional codec. -/
structure Parser (e : Type) where
  input : List e
  pos_conf : Nat
  pos_un : Nat
  olist : List PyVal
  codec : Option (Charset e)

/-- `Parser.__init__`. -/
def Parser.init {e : Type} (input : List e) (codec : Option (Charset e)) : Parser e :=
  ⟨input, 0, 0, [], codec⟩

/-- `Parser.remain`: `input[pos_conf:]`. -/
def Parser.remain {e : Type} (P : Parser e) : List e :=
  P.input.drop P.pos_conf

/-- `Parser.start`: set the unconfirmed parse point to the confirmed one. -/
def Parser.start {e : Type} (P : Parser e) : Parser e :=
  { P with pos_un := P.pos_conf }

/-- `Parser.confirm`: set the confirmed parse point to the unconfirmed one. -/
def Parser.confirm {e : Type} (P : Parser e) : Parser e :=
  { P with pos_conf := P.pos_un }

/-- The local `next` of `Parser.string`: `input[pos_un : pos_un + n]`. -/
def Parser.nextSlice {e : Type} (P : Parser e) (n : Nat) : List e :=
  pySlice P.input (P.pos_un : Int) ((P.pos_un : Int) + (n : Int))

/-- `Parser.string` after the expected literal has been computed: in the
source, `expected` is `s` itself when the input is a `str`, and `s`
translated element by element through `codec.native` otherwise. -/
def Parser.stringWith {e : Type} [DecidableEq e] (P : Parser e) (expected : List e) :
    Option (List e) × Parser e :=
  if expected = P.nextSlice expected.length then
    (some (P.nextSlice expected.length), { P with pos_un := P.pos_un + expected.length })
  else
    (none, P)

/-- `Parser.string` for a `str` input: `expected = s`. -/
def Parser.string (P : Parser Char) (s : List Char) : Option (List Char) × Parser Char :=
  P.stringWith s

/-- `Parser.string` for a non-`str` input with codec `c`:
`expected = type(input)(map(codec.native, s))`. -/
def Parser.stringVia {e : Type} [DecidableEq e] (P : Parser e) (c : Charset e)
    (s : List Char) : Option (List e) × Parser e :=
  P.stringWith (s.map c.native)

/-- The `Parser` states reachable from construction by any sequence of
`start()`, `confirm()` and `string()` calls. -/
inductive Parser.Reachable {e : Type} [DecidableEq e] : Parser e → Prop where
  | init (input : List e) (codec : Option (Charset e)) :
      Parser.Reachable (Parser.init input codec)
  | start {P : Parser e} : Parser.Reachable P → Parser.Reachable P.start
  | confirm {P : Parser e} : Parser.Reachable P → Parser.Reachable P.confirm
  | string {P : Parser e} (expected : List e) :
      Parser.Reachable P → Parser.Reachable (P.stringWith expected).2

/-- The `PState` class: input, position, output list and optional charset. -/
structure PState (e : Type) where
  input : List e
  pos : Nat
  olist : List PyVal
  charset : Option (Charset e)

/-- `PState.__init__`. -/
def PState.init {e : Type} (input : List e) (charset : Option (Charset e)) : PState e :=
  ⟨input, 0, [], charset⟩

/-- `PState.finished`: all input has been consumed. -/
def PState.finished {e : Type} (p : PState e) : Bool :=
  decide (p.pos ≥ p.input.length)

/-- `PState.remain`: `input[pos:]`. -/
def PState.remain {e : Type} (p : PState e) : List e :=
  p.input.drop p.pos

/-- `PState.__str__` as structured data: the position, `input[pos:pos+12]`,
`input[pos-12:pos]` and `olist[-4:]`, with Python slicing semantics. -/
def PState.str {e : Type} (p : PState e) : Diag e :=
  ⟨p.pos,
   pySlice p.input (p.pos : Int) ((p.pos : Int) + 12),
   pySlice p.input ((p.pos : Int) - 12) (p.pos : Int),
   pySlice p.olist (-4) (p.olist.length : Int)⟩

/-- `PState.error`: raise a `ParseError` carrying the message data and the
rendered state. -/
def PState.error {e a : Type} (p : PState e) (k : ErrKind) : Except (ParseError e) a :=
  Except.error ⟨k, PState.str p⟩

/-- `PState.consume`: error when consuming past the end of input, otherwise
advance `pos` by `n` and return `input[pos-n:pos]` (with the updated `pos`,
as in the source). -/
def PState.consume {e : Type} (p : PState e) (n : Nat) :
    Except (ParseError e) (List e × PState e) :=
  if p.pos + n > p.input.length then
    p.error (ErrKind.pastEnd (p.pos + n) p.input.length)
  else
    Except.ok
      (pySlice p.input (((p.pos + n : Nat) : Int) - (n : Int)) ((p.pos + n : Nat) : Int),
       { p with pos := p.pos + n })

/-- `PState.peek`: the next element, or none at end of input; never moves. -/
def PState.peek {e : Type} (p : PState e) : Option e :=
  if p.pos ≥ p.input.length then none else p.input.drop p.pos |>.head?

/-- The guard of `PState.generate`:
`len(olist) == 0 or isinstance(x, type(olist[0]))`. -/
def genOK : List PyVal → PyVal → Bool
  | [], _ => true
  | f :: _, x => isinstance x f.pytype

/-- `PState.generate`: append when the output list is empty or `x` is an
instance of the type of its first element, otherwise raise. -/
def PState.generate {e : Type} (p : PState e) (x : PyVal) :
    Except (ParseError e) (PState e) :=
  match p.olist with
  | [] => Except.ok { p with olist := p.olist ++ [x] }
  | f :: _ =>
    if isinstance x f.pytype then Except.ok { p with olist := p.olist ++ [x] }
    else p.error (ErrKind.cannotGenerate x x.pytype f.pytype)

/-- Result of `PState.output`: the Python `None`, a joined value, or the
exception raised by the join (`TypeError` for a foreign element,
`AttributeError` when the class of the first element has no `join`). -/
inductive POut where
  | pyNone
  | val (v : PyVal)
  | joinError
  deriving DecidableEq

/-- `str().join(olist)`: defined when every element is a `str`; the separator
is the empty string, so the join is the concatenation. -/
def joinAsStr : List PyVal → Option (List Char)
  | [] => some []
  | PyVal.str s :: rest => (joinAsStr rest).map (fun t => s ++ t)
  | _ => none

/-- `bytes().join(olist)`: defined when every element is a `bytes`. -/
def joinAsBytes : List PyVal → Option (List Nat)
  | [] => some []
  | PyVal.bytes b :: rest => (joinAsBytes rest).map (fun t => b ++ t)
  | _ => none

/-- `PState.output`: `None` when `olist` is empty, else `cls().join(olist)`
where `cls` is the class of the first element; `int` and `bool` have no
`join` method. -/
def PState.output {e : Type} (p : PState e) : POut :=
  match p.olist with
  | [] => POut.pyNone
  | f :: _ =>
    match f.pytype with
    | PyTy.str =>
      match joinAsStr p.olist with
      | some s => POut.val (PyVal.str s)
      | none => POut.joinError
    | PyTy.bytes =>
      match joinAsBytes p.olist with
      | some b => POut.val (PyVal.bytes b)
      | none => POut.joinError
    | _ => POut.joinError

/-- The `byte` parsing function. -/
def byte {e : Type} (p : PState e) (genf : Option (e → PyVal)) (err : Option String) :
    Except (ParseError e) (Option e × PState e) :=
  if p.finished then
    match err with
    | none => Except.ok (none, p)
    | some msg => p.error (ErrKind.custom msg)
  else
    match p.consume 1 with
    | Except.error er => Except.error er
    | Except.ok (xs, p1) =>
      match xs with
      | [] => p1.error ErrKind.indexError
      | x :: _ =>
        match genf with
        | none => Except.ok (some x, p1)
        | some f =>
          match p1.generate (f x) with
          | Except.error er => Except.error er
          | Except.ok p2 => Except.ok (some x, p2)

/-- Stable insertion of `x` into a list already sorted by descending key:
`x` goes after every element with a strictly greater key and before the
first element whose key is less than or equal, as a stable sort demands. -/
def insDesc {a : Type} (key : a → Nat) (x : a) : List a → List a
  | [] => [x]
  | y :: ys => if key x < key y then y :: insDesc key x ys else x :: y :: ys

/-- Stable sort by descending key, as Python `sorted(, key, reverse=True)`. -/
def sortDesc {a : Type} (key : a → Nat) : List a → List a
  | [] => []
  | x :: xs => insDesc key x (sortDesc key xs)

/-- `toksort` with the default field indices, on a sequence of pairs: project
the two fields of each tuple and sort by descending length of the first. -/
def toksort {k v : Type} (toktab : List (List k × v)) : List (List k × v) :=
  sortDesc (fun t => t.1.length) (toktab.map (fun f => (f.1, f.2)))

/-- The `startswith` test used by `toktrans`: `startswith l pre` is true when
`pre` is a prefix of `l`. -/
def startswith {e : Type} [DecidableEq e] : List e → List e → Bool
  | _, [] => true
  | [], _ :: _ => false
  | b :: l1, a :: pre1 => if a = b then startswith l1 pre1 else false

/-- `toktrans`: try each pair of the table in turn against the remaining
input; on the first match consume the key, generate the value and return the
key; return `None` when nothing matches. -/
def toktrans {e : Type} [DecidableEq e] (p : PState e) :
    List (List e × PyVal) → Except (ParseError e) (Option (List e) × PState e)
  | [] => Except.ok (none, p)
  | (x, y) :: rest =>
    if startswith p.remain x then
      match p.consume x.length with
      | Except.error er => Except.error er
      | Except.ok (_, p1) =>
        match p1.generate y with
        | Except.error er => Except.error er
        | Except.ok p2 => Except.ok (some x, p2)
    else
      toktrans p rest

/-! Concrete states and tables used by the witnesses, counterexamples and the
code-bug evaluation. -/

def tabC1 : List (List Char × PyVal) :=
  toksort [("ab".data, PyVal.str "AB".data), ("a".data, PyVal.str "A".data)]

def pC1 : PState Char := ⟨"abc".data, 0, [], none⟩

def pCW : PState Char := ⟨"abc".data, 0, [], none⟩

def pCE : PState Char := ⟨"a".data, 0, [PyVal.bytes []], none⟩

def tabCE : List (List Char × PyVal) := [("a".data, PyVal.str "A".data)]

def pT3 : PState Char := ⟨"z".data, 0, [], none⟩

def pT3b : PState Char := ⟨"a".data, 0, [], none⟩

def tabT3 : List (List Char × PyVal) := [("a".data, PyVal.str "A".data)]

def pG4 : PState Char := ⟨[], 0, [PyVal.int 0], none⟩

def pP5 : Parser Char := ⟨"ab".data, 0, 0, [], none⟩

def pB6 : PState Char := ⟨[], 0, [], none⟩

def pB6b : PState Char := ⟨"a".data, 0, [], none⟩

def pHello : Parser Char := ⟨"hello".data, 0, 0, [], none⟩

def pO8 : PState Char := ⟨[], 0, [PyVal.str "ab".data, PyVal.str "c".data], none⟩

def pO8e : PState Char := ⟨[], 0, [], none⟩

def pC9 : PState Char := ⟨"abcdefghijklmno".data, 3, [], none⟩

def pT10 : PState Char := ⟨"ab".data, 0, [], none⟩

def tab10 : List (List Char × PyVal) := [("a".data, PyVal.str "A".data)]

/-! Helper lemmas shared by the claim theorems. -/

lemma pyIdx_coe (n m : Nat) : pyIdx n (m : Int) = min m n := by
  unfold pyIdx
  rw [if_neg (by omega)]
  simp

lemma take_min_length {a : Type} (l : List a) (m : Nat) :
    l.take (min m l.length) = l.take m := by
  rcases Nat.le_total m l.length with h | h
  · rw [Nat.min_eq_left h]
  · rw [Nat.min_eq_right h, List.take_length, List.take_of_length_le h]

lemma drop_min_length {a : Type} (l : List a) (m n : Nat) (h : l.length ≤ n) :
    l.drop (min m n) = l.drop m := by
  rcases Nat.le_total m n with h2 | h2
  · rw [Nat.min_eq_left h2]
  · rw [Nat.min_eq_right h2, List.drop_eq_nil_iff.mpr h,
      List.drop_eq_nil_iff.mpr (le_trans h h2)]

lemma pySlice_natCast {a : Type} (l : List a) (m n : Nat) :
    pySlice l (m : Int) (n : Int) = (l.take n).drop m := by
  unfold pySlice
  rw [pyIdx_coe, pyIdx_coe, take_min_length,
    drop_min_length _ _ _ (List.length_take_le' n l)]

lemma consume_ok_of_le {e : Type} (p : PState e) (n : Nat)
    (h : p.pos + n ≤ p.input.length) :
    p.consume n = Except.ok ((p.input.drop p.pos).take n, { p with pos := p.pos + n }) := by
  unfold PState.consume
  rw [if_neg (by omega)]
  have h1 : (((p.pos + n : Nat) : Int) - (n : Int)) = ((p.pos : Nat) : Int) := by
    push_cast
    ring
  have h2 : (p.input.take (p.pos + n)).drop p.pos = (p.input.drop p.pos).take n := by
    rw [List.drop_take]
    congr 1
    omega
  rw [h1, pySlice_natCast, h2]

lemma consume_err_of_gt {e : Type} (p : PState e) (n : Nat)
    (h : p.input.length < p.pos + n) :
    p.consume n =
      Except.error ⟨ErrKind.pastEnd (p.pos + n) p.input.length, PState.str p⟩ := by
  unfold PState.consume
  rw [if_pos (by omega)]
  rfl

lemma generate_ok {e : Type} (p : PState e) (x : PyVal) (h : genOK p.olist x = true) :
    p.generate x = Except.ok { p with olist := p.olist ++ [x] } := by
  unfold PState.generate
  rcases hol : p.olist with _ | ⟨f, rest⟩
  · rfl
  · rw [hol] at h
    simp only [genOK] at h
    simp [h]

lemma generate_err {e : Type} (p : PState e) (x f : PyVal) (rest : List PyVal)
    (hol : p.olist = f :: rest) (h : isinstance x f.pytype = false) :
    p.generate x =
      Except.error ⟨ErrKind.cannotGenerate x x.pytype f.pytype, PState.str p⟩ := by
  unfold PState.generate
  rw [hol]
  simp [h, PState.error]

lemma genOK_eq_false (ol : List PyVal) (y : PyVal) (h : genOK ol y = false) :
    ∃ f rest, ol = f :: rest ∧ isinstance y f.pytype = false := by
  cases ol with
  | nil => simp [genOK] at h
  | cons f rest => exact ⟨f, rest, rfl, by simp [genOK] at h; exact h⟩

lemma startswith_length_le {e : Type} [DecidableEq e] :
    ∀ (l pre : List e), startswith l pre = true → pre.length ≤ l.length := by
  intro l pre
  induction pre generalizing l with
  | nil => intro _; simp
  | cons a pre1 ih =>
    cases l with
    | nil => intro h; exact absurd h (by simp [startswith])
    | cons b l1 =>
      intro h
      rw [startswith] at h
      split at h
      · have := ih l1 h
        simp only [List.length_cons]
        omega
      · exact absurd h (by simp)

lemma toktrans_find_none {e : Type} [DecidableEq e] (p : PState e)
    (tab : List (List e × PyVal))
    (h : (tab.find? fun en => startswith p.remain en.1) = none) :
    toktrans p tab = Except.ok (none, p) := by
  induction tab with
  | nil => rfl
  | cons hd tl ih =>
    obtain ⟨k, v⟩ := hd
    rw [List.find?_cons] at h
    by_cases hk : startswith p.remain k = true
    · simp only [hk] at h
      exact Option.noConfusion h
    · have hk2 : startswith p.remain k = false := by
        rwa [Bool.not_eq_true] at hk
      simp only [hk2] at h
      simp only [toktrans]
      rw [if_neg hk]
      exact ih h

lemma toktrans_find_some {e : Type} [DecidableEq e] (p : PState e)
    (tab : List (List e × PyVal)) (x : List e) (y : PyVal)
    (hpos : p.pos ≤ p.input.length)
    (h : (tab.find? fun en => startswith p.remain en.1) = some (x, y)) :
    (genOK p.olist y = true →
        toktrans p tab =
          Except.ok (some x, { p with pos := p.pos + x.length, olist := p.olist ++ [y] })) ∧
    (genOK p.olist y = false →
        ∃ f rest, p.olist = f :: rest ∧
          toktrans p tab =
            Except.error ⟨ErrKind.cannotGenerate y y.pytype f.pytype,
              PState.str { p with pos := p.pos + x.length }⟩) := by
  induction tab with
  | nil => exact absurd h (by simp)
  | cons hd tl ih =>
    obtain ⟨k, v⟩ := hd
    rw [List.find?_cons] at h
    by_cases hk : startswith p.remain k = true
    · simp only [hk] at h
      rw [Option.some.injEq, Prod.mk.injEq] at h
      obtain ⟨rfl, rfl⟩ := h
      have hlen : k.length ≤ p.remain.length := startswith_length_le _ _ hk
      have hrem : p.remain.length = p.input.length - p.pos := by
        simp [PState.remain]
      have hle : p.pos + k.length ≤ p.input.length := by omega
      have hcons := consume_ok_of_le p k.length hle
      constructor
      · intro hg
        have hg1 : genOK (PState.olist { p with pos := p.pos + k.length }) v = true := hg
        simp only [toktrans]
        rw [if_pos hk, hcons]
        simp only [generate_ok _ _ hg1]
      · intro hg
        obtain ⟨f, rest, hol, hiso⟩ := genOK_eq_false p.olist v hg
        refine ⟨f, rest, hol, ?_⟩
        have herr := generate_err { p with pos := p.pos + k.length } v f rest hol hiso
        simp only [toktrans]
        rw [if_pos hk, hcons]
        simp only [herr]
    · have hk2 : startswith p.remain k = false := by
        rwa [Bool.not_eq_true] at hk
      simp only [hk2] at h
      simp only [toktrans]
      rw [if_neg hk]
      exact ih h

lemma toktrans_no_pastEnd {e : Type} [DecidableEq e] (p : PState e)
    (tab : List (List e × PyVal)) (hpos : p.pos ≤ p.input.length) :
    ∀ err, toktrans p tab = Except.error err → err.pastEndQ = false := by
  intro err he
  cases hfind : (tab.find? fun en => startswith p.remain en.1) with
  | none =>
    rw [toktrans_find_none p tab hfind] at he
    exact absurd he (by simp)
  | some xy =>
    obtain ⟨x, y⟩ := xy
    have hm := toktrans_find_some p tab x y hpos hfind
    cases hg : genOK p.olist y with
    | true =>
      rw [hm.1 hg] at he
      exact absurd he (by simp)
    | false =>
      obtain ⟨f, rest, _, herr⟩ := hm.2 hg
      have : Except.error (ε := ParseError e)
          (α := Option (List e) × PState e)
          ⟨ErrKind.cannotGenerate y y.pytype f.pytype,
            PState.str { p with pos := p.pos + x.length }⟩ = Except.error err :=
        herr.symm.trans he
      rw [Except.error.injEq] at this
      rw [← this]
      rfl

lemma insDesc_mem {a : Type} (key : a → Nat) (x : a) (l : List a) (b : a)
    (h : b ∈ insDesc key x l) : b = x ∨ b ∈ l := by
  induction l with
  | nil => simpa [insDesc] using h
  | cons y ys ih =>
    rw [insDesc] at h
    split at h
    · rcases List.mem_cons.mp h with h1 | h1
      · right
        exact h1 ▸ List.mem_cons_self y ys
      · rcases ih h1 with h2 | h2
        · left; exact h2
        · right; exact List.mem_cons_of_mem y h2
    · rcases List.mem_cons.mp h with h1 | h1
      · left; exact h1
      · right; exact h1

lemma insDesc_pairwise {a : Type} (key : a → Nat) (x : a) (l : List a)
    (h : l.Pairwise fun u v => key v ≤ key u) :
    (insDesc key x l).Pairwise fun u v => key v ≤ key u := by
  induction l with
  | nil => simp [insDesc]
  | cons y ys ih =>
    rw [List.pairwise_cons] at h
    obtain ⟨hy, hys⟩ := h
    rw [insDesc]
    split
    · rename_i hlt
      rw [List.pairwise_cons]
      refine ⟨?_, ih hys⟩
      intro b hb
      rcases insDesc_mem key x ys b hb with rfl | hb1
      · exact Nat.le_of_lt hlt
      · exact hy b hb1
    · rename_i hge
      rw [List.pairwise_cons]
      constructor
      · intro b hb
        rcases List.mem_cons.mp hb with rfl | hb1
        · omega
        · have := hy b hb1
          omega
      · rw [List.pairwise_cons]
        exact ⟨hy, hys⟩

lemma sortDesc_pairwise {a : Type} (key : a → Nat) (l : List a) :
    (sortDesc key l).Pairwise fun u v => key v ≤ key u := by
  induction l with
  | nil => simp [sortDesc]
  | cons x xs ih => exact insDesc_pairwise key x _ ih

lemma joinAsStr_map (ss : List (List Char)) :
    joinAsStr (ss.map PyVal.str) = some ss.flatten := by
  induction ss with
  | nil => rfl
  | cons s tl ih => simp [joinAsStr, ih]

lemma joinAsBytes_map (bs : List (List Nat)) :
    joinAsBytes (bs.map PyVal.bytes) = some bs.flatten := by
  induction bs with
  | nil => rfl
  | cons b tl ih => simp [joinAsBytes, ih]

/-! The claim theorems. -/

/-- Claim C1: toksort orders table entries by descending key length, and for
the table toksort([("ab","AB"), ("a","A")]), toktrans on remaining input
"abc" consumes exactly 2 elements, appends "AB" to the output list and
returns "ab"; the shorter key never wins over a longer matching key placed
before it. -/
theorem toksort_toktrans_longest_match :
    (∀ (k v : Type) (tab : List (List k × v)),
        (toksort tab).Pairwise fun u w => w.1.length ≤ u.1.length) ∧
    tabC1 = [("ab".data, PyVal.str "AB".data), ("a".data, PyVal.str "A".data)] ∧
    toktrans pC1 tabC1 =
      Except.ok (some "ab".data, ⟨"abc".data, 2, [PyVal.str "AB".data], none⟩) :=
  ⟨fun _ _ tab => sortDesc_pairwise _ _, by rfl, by rfl⟩

/-- Claim C2: for every state and every n with pos + n within the input,
consume advances the position by exactly n and returns the n elements at the
old position; past the end it raises the past-end ParseError, rendered from
the unchanged state. -/
theorem consume_correct {e : Type} (p : PState e) (n : Nat) :
    (p.pos + n ≤ p.input.length →
        p.consume n =
          Except.ok ((p.input.drop p.pos).take n, { p with pos := p.pos + n })) ∧
    (p.input.length < p.pos + n →
        p.consume n =
          Except.error ⟨ErrKind.pastEnd (p.pos + n) p.input.length, PState.str p⟩) :=
  ⟨fun h => consume_ok_of_le p n h, fun h => consume_err_of_gt p n h⟩

/-- Witness for consume_correct: both branches at a concrete state. -/
theorem consume_correct_witness :
    pCW.consume 2 =
      Except.ok ((pCW.input.drop pCW.pos).take 2, { pCW with pos := pCW.pos + 2 }) ∧
    pCW.consume 9 =
      Except.error ⟨ErrKind.pastEnd (pCW.pos + 9) pCW.input.length, PState.str pCW⟩ :=
  ⟨(consume_correct pCW 2).1 (by decide), (consume_correct pCW 9).2 (by decide)⟩

/-- Claim C3 counterexample: a table entry whose key is a prefix of the
remaining input but whose value is incompatible with the type family of the
output accumulator makes toktrans raise a ParseError instead of appending
the value and returning the key. -/
theorem toktrans_generate_mismatch :
    (tabCE.find? fun en => startswith pCE.remain en.1) =
      some ("a".data, PyVal.str "A".data) ∧
    toktrans pCE tabCE =
      Except.error ⟨ErrKind.cannotGenerate (PyVal.str "A".data) PyTy.str PyTy.bytes,
        PState.str ⟨"a".data, 1, [PyVal.bytes []], none⟩⟩ :=
  ⟨by rfl, by rfl⟩

/-- Claim C3, amended: toktrans scans the table in order; when no key is a
prefix of the remaining input it returns the none sentinel with the state
unchanged; at the first entry whose key is a prefix, if the value fits the
output type family it consumes the key length, appends the value and returns
the key, and otherwise it raises a ParseError. -/
theorem toktrans_contract {e : Type} [DecidableEq e] (p : PState e)
    (tab : List (List e × PyVal)) (hpos : p.pos ≤ p.input.length) :
    ((tab.find? fun en => startswith p.remain en.1) = none →
        toktrans p tab = Except.ok (none, p)) ∧
    (∀ x y, (tab.find? fun en => startswith p.remain en.1) = some (x, y) →
        (genOK p.olist y = true →
            toktrans p tab =
              Except.ok (some x,
                { p with pos := p.pos + x.length, olist := p.olist ++ [y] })) ∧
        (genOK p.olist y = false → ∃ err, toktrans p tab = Except.error err)) := by
  refine ⟨fun h => toktrans_find_none p tab h, fun x y h => ?_⟩
  have hm := toktrans_find_some p tab x y hpos h
  refine ⟨hm.1, fun hg => ?_⟩
  obtain ⟨f, rest, _, herr⟩ := hm.2 hg
  exact ⟨_, herr⟩

/-- Witness for toktrans_contract: the none branch and the success branch at
concrete states. -/
theorem toktrans_contract_witness :
    toktrans pT3 tabT3 = Except.ok (none, pT3) ∧
    toktrans pT3b tabT3 =
      Except.ok (some "a".data,
        { pT3b with pos := pT3b.pos + "a".data.length,
                    olist := pT3b.olist ++ [PyVal.str "A".data] }) :=
  ⟨(toktrans_contract pT3 tabT3 (by decide)).1 (by rfl),
   ((toktrans_contract pT3b tabT3 (by decide)).2 "a".data (PyVal.str "A".data)
      (by rfl)).1 (by rfl)⟩

/-- Claim C4: once the output list has a first fragment, generate(y) with y
not an instance of the type of that first fragment raises a ParseError and
returns no new state, while generate(y) with y an instance of it (including
a proper subtype) appends y. -/
theorem generate_type_family {e : Type} (p : PState e) (x : PyVal)
    (rest : List PyVal) (y : PyVal) (h : p.olist = x :: rest) :
    (isinstance y x.pytype = false →
        p.generate y =
          Except.error ⟨ErrKind.cannotGenerate y y.pytype x.pytype, PState.str p⟩) ∧
    (isinstance y x.pytype = true →
        p.generate y = Except.ok { p with olist := p.olist ++ [y] }) :=
  ⟨fun hiso => generate_err p y x rest h hiso,
   fun hiso => generate_ok p y (by rw [h]; exact hiso)⟩

/-- Witness for generate_type_family: a str against an int accumulator is
rejected, a bool (subtype of int) is appended. -/
theorem generate_type_family_witness :
    pG4.generate (PyVal.str "s".data) =
      Except.error ⟨ErrKind.cannotGenerate (PyVal.str "s".data)
        (PyVal.str "s".data).pytype (PyVal.int 0).pytype, PState.str pG4⟩ ∧
    pG4.generate (PyVal.bool true) =
      Except.ok { pG4 with olist := pG4.olist ++ [PyVal.bool true] } :=
  ⟨(generate_type_family pG4 (PyVal.int 0) [] (PyVal.str "s".data) rfl).1 (by decide),
   (generate_type_family pG4 (PyVal.int 0) [] (PyVal.bool true) rfl).2 (by decide)⟩

/-- Claim C5: in every Parser state reachable from construction by start,
confirm and string calls, the unconfirmed parse point is at least the
confirmed one. -/
theorem parser_cursor_invariant {e : Type} [DecidableEq e] {P : Parser e}
    (h : Parser.Reachable P) : P.pos_conf ≤ P.pos_un := by
  induction h with
  | init input codec => exact Nat.le_refl 0
  | start _ _ => exact Nat.le_refl _
  | confirm _ _ => exact Nat.le_refl _
  | string expected _ ih =>
    unfold Parser.stringWith
    split
    · exact le_trans ih (Nat.le_add_right _ _)
    · exact ih

/-- Witness for parser_cursor_invariant: a reachable state after a string
step. -/
theorem parser_cursor_invariant_witness :
    ((pP5.stringWith "a".data).2).pos_conf ≤ ((pP5.stringWith "a".data).2).pos_un :=
  parser_cursor_invariant
    (Parser.Reachable.string "a".data (Parser.Reachable.init "ab".data none))

/-- Claim C6: at end of input, byte with the default err raises a ParseError
whose message is the unexpected-end-of-input phrase, while byte with err none
returns the none sentinel with the state unchanged; with input remaining,
byte consumes exactly one element and returns it. -/
theorem byte_fail_vs_error {e : Type} (p : PState e) :
    (p.finished = true →
        byte p none (some "unexpected end of input") =
          Except.error ⟨ErrKind.custom "unexpected end of input", PState.str p⟩ ∧
        "unexpected end of input".data <:+:
          (ErrKind.custom "unexpected end of input").message.data ∧
        byte p none none = Except.ok (none, p)) ∧
    (∀ x rest, p.input.drop p.pos = x :: rest →
        byte p none (some "unexpected end of input") =
          Except.ok (some x, { p with pos := p.pos + 1 })) := by
  constructor
  · intro hfin
    refine ⟨?_, List.infix_refl _, ?_⟩
    · unfold byte
      rw [hfin]
      rfl
    · unfold byte
      rw [hfin]
      rfl
  · intro x rest hdrop
    have hlt : p.pos < p.input.length := by
      rcases Nat.lt_or_ge p.pos p.input.length with h | h
      · exact h
      · rw [List.drop_eq_nil_iff.mpr h] at hdrop
        exact absurd hdrop (by simp)
    have hfin : p.finished = false := by
      unfold PState.finished
      simp only [decide_eq_false_iff_not]
      omega
    have hcons := consume_ok_of_le p 1 (by omega)
    have htake : (p.input.drop p.pos).take 1 = [x] := by
      rw [hdrop]
      rfl
    rw [htake] at hcons
    unfold byte
    rw [hfin]
    simp only [Bool.false_eq_true, if_false, hcons]

/-- Witness for byte_fail_vs_error: both the end-of-input branches and the
consuming branch at concrete states. -/
theorem byte_fail_vs_error_witness :
    (byte pB6 none (some "unexpected end of input") =
        Except.error ⟨ErrKind.custom "unexpected end of input", PState.str pB6⟩ ∧
      "unexpected end of input".data <:+:
        (ErrKind.custom "unexpected end of input").message.data ∧
      byte pB6 none none = Except.ok (none, pB6)) ∧
    byte pB6b none (some "unexpected end of input") =
      Except.ok (some 'a', { pB6b with pos := pB6b.pos + 1 }) :=
  ⟨(byte_fail_vs_error pB6).1 (by rfl),
   (byte_fail_vs_error pB6b).2 'a' [] (by rfl)⟩

/-- Claim C7: when the next elements at the tentative position equal the
expected literal, string advances the tentative position by its length and
returns the matched slice, and otherwise leaves the state unchanged and
returns the none sentinel. -/
theorem string_literal_match {e : Type} [DecidableEq e] (P : Parser e)
    (expected : List e) :
    (P.nextSlice expected.length = expected →
        P.stringWith expected =
          (some expected, { P with pos_un := P.pos_un + expected.length })) ∧
    (P.nextSlice expected.length ≠ expected →
        P.stringWith expected = (none, P)) := by
  constructor
  · intro h
    unfold Parser.stringWith
    rw [if_pos h.symm, h]
  · intro h
    unfold Parser.stringWith
    rw [if_neg fun hc => h hc.symm]

/-- Witness for string_literal_match: string against "hello" fails on "help"
with the parser unchanged and succeeds on "hell". -/
theorem string_literal_match_witness :
    Parser.string pHello "help".data = (none, pHello) ∧
    Parser.string pHello "hell".data =
      (some "hell".data,
        { pHello with pos_un := pHello.pos_un + "hell".data.length }) :=
  ⟨(string_literal_match pHello "help".data).2 (by decide),
   (string_literal_match pHello "hell".data).1 (by decide)⟩

/-- Claim C8: output() returns the none sentinel on an empty accumulator and
otherwise the concatenation of all fragments in append order, joined through
a fresh zero value of the type of the first fragment. -/
theorem output_join {e : Type} (p : PState e) :
    (p.olist = [] → p.output = POut.pyNone) ∧
    (∀ ss : List (List Char), ss ≠ [] → p.olist = ss.map PyVal.str →
        p.output = POut.val (PyVal.str ss.flatten)) ∧
    (∀ bs : List (List Nat), bs ≠ [] → p.olist = bs.map PyVal.bytes →
        p.output = POut.val (PyVal.bytes bs.flatten)) := by
  refine ⟨fun h => ?_, fun ss hne h => ?_, fun bs hne h => ?_⟩
  · unfold PState.output
    rw [h]
  · cases ss with
    | nil => exact absurd rfl hne
    | cons s tl =>
      unfold PState.output
      rw [h, joinAsStr_map]
      simp [PyVal.pytype]
  · cases bs with
    | nil => exact absurd rfl hne
    | cons b tl =>
      unfold PState.output
      rw [h, joinAsBytes_map]
      simp [PyVal.pytype]

/-- Witness for output_join: the empty accumulator and a two-fragment str
accumulator. -/
theorem output_join_witness :
    pO8e.output = POut.pyNone ∧
    pO8.output = POut.val (PyVal.str (["ab".data, "c".data].flatten)) :=
  ⟨(output_join pO8e).1 rfl,
   (output_join pO8).2.1 ["ab".data, "c".data] (by simp) rfl⟩

/-- Claim C9, evaluation at the failing input: at position 3 in a 15-element
input the rendered before-window input[pos-12:pos] is empty, although the
elements from max(pos-12,0) up to pos are "abc"; the Python negative slice
bound wraps around instead of clamping to 0. -/
theorem error_context_window_bug :
    pC9.pos = 3 ∧ pC9.pos < 12 ∧ 12 ≤ pC9.input.length ∧
    (PState.str pC9).behind = [] ∧
    pC9.input.take pC9.pos = "abc".data ∧
    (PState.str pC9).behind ≠ pC9.input.take pC9.pos :=
  ⟨rfl, by decide, by decide, by decide, by decide, by decide⟩

/-- Claim C10: whenever toktrans finds an entry whose key is a prefix of the
remaining input, the internal consume call is within bounds and succeeds, so
toktrans never raises the consumed-past-end error itself. -/
theorem toktrans_consume_in_bounds {e : Type} [DecidableEq e] (p : PState e)
    (tab : List (List e × PyVal)) (hpos : p.pos ≤ p.input.length) :
    (∀ x y, (tab.find? fun en => startswith p.remain en.1) = some (x, y) →
        p.pos + x.length ≤ p.input.length ∧
        p.consume x.length =
          Except.ok ((p.input.drop p.pos).take x.length,
            { p with pos := p.pos + x.length })) ∧
    (∀ err, toktrans p tab = Except.error err → err.pastEndQ = false) := by
  constructor
  · intro x y hfind
    have hx : startswith p.remain x = true := by
      have hp := List.find?_some hfind
      simpa using hp
    have hlen := startswith_length_le p.remain x hx
    have hrem : p.remain.length = p.input.length - p.pos := by
      simp [PState.remain]
    have hle : p.pos + x.length ≤ p.input.length := by omega
    exact ⟨hle, consume_ok_of_le p x.length hle⟩
  · exact toktrans_no_pastEnd p tab hpos

/-- Witness for toktrans_consume_in_bounds: the matched key of a concrete
table is within bounds of a concrete state. -/
theorem toktrans_consume_in_bounds_witness :
    pT10.pos + "a".data.length ≤ pT10.input.length ∧
    pT10.consume "a".data.length =
      Except.ok ((pT10.input.drop pT10.pos).take "a".data.length,
        { pT10 with pos := pT10.pos + "a".data.length }) :=
  (toktrans_consume_in_bounds pT10 tab10 (by decide)).1 "a".data
    (PyVal.str "A".data) (by rfl)
